import Mathlib

/-!
Verification of the go-kratos/kit pagination helpers and retry executor.

Byte strings (Go `string` / `[]byte`) are modelled as `List Nat` with each
element a byte (`< 256`).  Machine integers are modelled as `Int` with
explicit wrapping where Go's arithmetic wraps.  Errors are modelled with
`Option` (`none` = nil error).
-/

namespace Pagination

/-- Character of the Go standard base64 alphabet
("A-Za-z0-9+/") at a 6-bit index, as in encoding/base64's StdEncoding. -/
def b64char (v : Nat) : Nat :=
  if v < 26 then 65 + v
  else if v < 52 then 97 + (v - 26)
  else if v < 62 then 48 + (v - 52)
  else if v = 62 then 43 else 47

/-- Inverse of the standard base64 alphabet: 6-bit value of an ASCII byte,
`none` when the byte is not in the alphabet. -/
def b64val (c : Nat) : Option Nat :=
  if 65 ≤ c ∧ c ≤ 90 then some (c - 65)
  else if 97 ≤ c ∧ c ≤ 122 then some (c - 97 + 26)
  else if 48 ≤ c ∧ c ≤ 57 then some (c - 48 + 52)
  else if c = 43 then some 62
  else if c = 47 then some 63
  else none

/-- `base64.StdEncoding.EncodeToString`: encode bytes in 3-byte groups into
4 alphabet characters, padding a final 1- or 2-byte group with `=` (61). -/
def base64Encode : List Nat → List Nat
  | [] => []
  | [b0] => [b64char (b0 / 4), b64char (b0 % 4 * 16), 61, 61]
  | [b0, b1] =>
      [b64char (b0 / 4), b64char (b0 % 4 * 16 + b1 / 16), b64char (b1 % 16 * 4), 61]
  | b0 :: b1 :: b2 :: rest =>
      b64char (b0 / 4) :: b64char (b0 % 4 * 16 + b1 / 16) ::
        b64char (b1 % 16 * 4 + b2 / 64) :: b64char (b2 % 64) :: base64Encode rest

/-- Decode 4-character base64 quanta as Go's StdEncoding decoder does:
the input length must be a multiple of 4, `=` (61) may appear only as the
final one or two characters, and unused trailing bits are not checked
(Go's non-strict default). -/
def decodeQuanta : List Nat → Option (List Nat)
  | [] => some []
  | c0 :: c1 :: c2 :: c3 :: rest =>
    match b64val c0, b64val c1 with
    | some v0, some v1 =>
      if c2 = 61 then
        if c3 = 61 ∧ rest = [] then some [v0 * 4 + v1 / 16] else none
      else
        match b64val c2 with
        | some v2 =>
          if c3 = 61 then
            if rest = [] then some [v0 * 4 + v1 / 16, v1 % 16 * 16 + v2 / 4] else none
          else
            match b64val c3 with
            | some v3 =>
                (decodeQuanta rest).map
                  (fun bs => (v0 * 4 + v1 / 16) :: (v1 % 16 * 16 + v2 / 4) ::
                    (v2 % 4 * 64 + v3) :: bs)
            | none => none
        | none => none
    | _, _ => none
  | _ => none

/-- `base64.StdEncoding.DecodeString`: Go's decoder skips newline
characters (`\r` = 13, `\n` = 10) before decoding quanta. -/
def base64Decode (s : List Nat) : Option (List Nat) :=
  decodeQuanta (s.filter fun c => c != 13 && c != 10)

/-- ASCII decimal digits of a natural number, most significant first,
as produced by Go's `fmt.Sprintf("%d", _)` (so `natDigits 0 = [48]`). -/
def natDigits (n : Nat) : List Nat :=
  if h : n < 10 then [48 + n] else natDigits (n / 10) ++ [48 + n % 10]
  termination_by n
  decreasing_by exact Nat.div_lt_self (by omega) (by omega)

/-- `fmt.Sprintf("%d", i)` for a Go `int`: a `-` (45) sign for negative
values followed by the decimal digits of the absolute value. -/
def intToDec (i : Int) : List Nat :=
  if i < 0 then 45 :: natDigits i.natAbs else natDigits i.natAbs

/-- Whether an ASCII byte is a decimal digit. -/
def isDigit (c : Nat) : Bool := 48 ≤ c && c ≤ 57

/-- Value of a list of ASCII decimal digits, most significant first. -/
def digitsVal (l : List Nat) : Nat :=
  l.foldl (fun acc d => acc * 10 + (d - 48)) 0

/-- The digits/range part of `strconv.Atoi` after the sign has been
consumed: requires a non-empty all-digit string whose value fits in a
64-bit `int` (Go returns an error, modelled as `none`, otherwise). -/
def atoiCore (neg : Bool) (ds : List Nat) : Option Int :=
  if ds = [] then none
  else if ds.all isDigit then
    if neg then
      if digitsVal ds ≤ 2 ^ 63 then some (-(digitsVal ds : Int)) else none
    else
      if digitsVal ds < 2 ^ 63 then some ((digitsVal ds : Int)) else none
  else none

/-- `strconv.Atoi` on a 64-bit platform: optional `+`/`-` sign then
decimal digits; errors (`none`) on an empty string, a lone sign, a
non-digit character, or a value outside the `int` range. -/
def atoi : List Nat → Option Int
  | [] => none
  | c :: rest =>
    if c = 45 then atoiCore true rest
    else if c = 43 then atoiCore false rest
    else atoiCore false (c :: rest)

/-- `strings.HasPrefix(s, pre)` on byte strings. -/
def hasPrefix : List Nat → List Nat → Bool
  | _, [] => true
  | [], _ :: _ => false
  | c :: cs, p :: ps => c == p && hasPrefix cs ps

/-- `strings.TrimPrefix(s, pre)`: drop `pre` when it is a prefix of `s`,
otherwise return `s` unchanged. -/
def trimPrefix (s pre : List Nat) : List Nat :=
  if hasPrefix s pre then s.drop pre.length else s

/-- The error value `ErrInvalidToken` returned for invalid page tokens. -/
inductive PageError where
  | invalidToken
  deriving DecidableEq, Repr

/-- `tokenGenerator.ForIndex`: base64-encode the salt followed by the
decimal representation of the index (`fmt.Sprintf("%s%d", salt, i)`). -/
def ForIndex (salt : List Nat) (i : Int) : List Nat :=
  base64Encode (salt ++ intToDec i)

/-- `tokenGenerator.GetIndex`: empty tokens give index 0 with no error;
otherwise base64-decode, require the salt prefix, and parse the rest as a
decimal integer, with every failure returning `(0, ErrInvalidToken)`. -/
def GetIndex (salt token : List Nat) : Int × Option PageError :=
  if token = [] then (0, none)
  else
    match base64Decode token with
    | none => (0, some .invalidToken)
    | some bs =>
      if ¬ hasPrefix bs salt then (0, some .invalidToken)
      else
        match atoi (trimPrefix bs salt) with
        | none => (0, some .invalidToken)
        | some index => (index, none)

/-- Calculated offset and limit (`Range`), fields modelled as
mathematical integers holding `int32` values. -/
structure GoRange where
  Offset : Int
  Limit : Int
  deriving DecidableEq, Repr

/-- Wrap an integer into the `int32` value range, as Go's 32-bit
two's-complement arithmetic does. -/
def wrap32 (x : Int) : Int := (x + 2 ^ 31) % 2 ^ 32 - 2 ^ 31

/-- `paginator.Resolve` (the same body implements `Pagination.Resolve`):
substitute the defaults for non-positive page/size, then
`offset := (page - 1) * size` in wrapping `int32` arithmetic. -/
def Resolve (defPage defSize page size : Int) : GoRange :=
  let p := if page ≤ 0 then defPage else page
  let s := if size ≤ 0 then defSize else size
  { Offset := wrap32 (wrap32 (p - 1) * s), Limit := s }

end Pagination

namespace Retry

/-- Modelled from the spec: the retry package's source is not in the
repository snapshot; the numeric backoff fields of a `RetryPolicy` (§3).
Durations and ratios are modelled as exact rationals. -/
structure BackoffPolicy where
  baseDelay : ℚ
  maxDelay : ℚ
  multiplier : ℚ
  jitterFraction : ℚ
  deriving DecidableEq, Repr

/-- Modelled from the spec: the §3 invariant on a policy's backoff
fields. -/
def ValidBackoff (p : BackoffPolicy) : Prop :=
  0 < p.baseDelay ∧ p.baseDelay ≤ p.maxDelay ∧ 1 ≤ p.multiplier ∧
    0 ≤ p.jitterFraction ∧ p.jitterFraction < 1

/-- Modelled from the spec: the BackoffCalculator's pre-cap base value
`raw = baseDelay × multiplier^(attemptIndex − 1)` (§4.1); with exact
rational arithmetic, no overflow can occur and the cap below performs
the saturation. -/
def rawDelay (p : BackoffPolicy) (n : Nat) : ℚ :=
  p.baseDelay * p.multiplier ^ (n - 1)

/-- Modelled from the spec: `capped = min(raw, maxDelay)` (§4.1). -/
def cappedDelay (p : BackoffPolicy) (n : Nat) : ℚ :=
  min (rawDelay p n) p.maxDelay

/-- Clamp a rational into a closed interval. -/
def clampQ (x lo hi : ℚ) : ℚ := max lo (min x hi)

/-- Modelled from the spec: the final delay for a jitter draw `u` (to be
taken from `[-jitterFraction, +jitterFraction]`): `capped × (1 + u)`,
clamped to `[0, maxDelay]` (§4.1). -/
def delayWithJitter (p : BackoffPolicy) (n : Nat) (u : ℚ) : ℚ :=
  clampQ (cappedDelay p n * (1 + u)) 0 p.maxDelay

/-- Modelled from the spec: a full `RetryPolicy` (§3) — attempt limit
(`0` = unbounded), backoff fields, and the retryability predicate over an
abstract error type. -/
structure Policy (Err : Type) where
  maxAttempts : Nat
  backoff : BackoffPolicy
  retryable : Err → Bool

/-- Outcome of a `Do` call: the returned error (`none` = success), how
many times the operation was invoked, and the delays fully waited. -/
structure DoOutcome (Err : Type) where
  result : Option Err
  invocations : Nat
  delays : List ℚ
  deriving DecidableEq

/-- Modelled from the spec: the Executor loop of §4.2 steps 3–6, with an
explicit fuel bound (`none` = fuel exhausted before a terminal state).
`op n` is the error of the `n`-th invocation, `cancelW n` the cancellation
reason when the signal triggers during the wait after attempt `n`, and
`us n` the jitter draw used for that wait. -/
def doLoop {Err : Type} (pol : Policy Err) (cancelW : Nat → Option Err)
    (op : Nat → Option Err) (us : Nat → ℚ) :
    Nat → Nat → List ℚ → Option (DoOutcome Err)
  | 0, _, _ => none
  | fuel + 1, attempt, ds =>
    match op attempt with
    | none => some ⟨none, attempt, ds⟩
    | some e =>
      if ¬ pol.retryable e then some ⟨some e, attempt, ds⟩
      else if 0 < pol.maxAttempts ∧ pol.maxAttempts ≤ attempt then
        some ⟨some e, attempt, ds⟩
      else
        match cancelW attempt with
        | some r => some ⟨some r, attempt, ds⟩
        | none =>
            doLoop pol cancelW op us fuel (attempt + 1)
              (ds ++ [delayWithJitter pol.backoff attempt (us attempt)])

/-- Modelled from the spec: `Executor.Do` (§4.2): if the cancellation
signal is already triggered (`cancelled = some r`) return its reason
without invoking the operation; otherwise run the attempt loop starting
at attempt counter 1. -/
def Do {Err : Type} (pol : Policy Err) (cancelled : Option Err)
    (cancelW op : Nat → Option Err) (us : Nat → ℚ) (fuel : Nat) :
    Option (DoOutcome Err) :=
  match cancelled with
  | some r => some ⟨some r, 0, []⟩
  | none => doLoop pol cancelW op us fuel 1 []

/-- Modelled from the spec: the functional options of §6
(`WithBaseDelay`, `WithMaxDelay`, `WithMultiplier`, `WithJitter`,
`WithRetryable`). -/
inductive ROption (Err : Type) where
  | withBaseDelay (d : ℚ)
  | withMaxDelay (d : ℚ)
  | withMultiplier (f : ℚ)
  | withJitter (f : ℚ)
  | withRetryable (p : Err → Bool)

/-- Modelled from the spec: apply one functional option to a policy;
options are applied in call order, later ones overriding earlier ones. -/
def applyOpt {Err : Type} (pol : Policy Err) : ROption Err → Policy Err
  | .withBaseDelay d => { pol with backoff := { pol.backoff with baseDelay := d } }
  | .withMaxDelay d => { pol with backoff := { pol.backoff with maxDelay := d } }
  | .withMultiplier f => { pol with backoff := { pol.backoff with multiplier := f } }
  | .withJitter f => { pol with backoff := { pol.backoff with jitterFraction := f } }
  | .withRetryable p => { pol with retryable := p }

/-- Modelled from the spec: the defaults of §6 — a small positive base
delay, a materially larger max delay, multiplier above 1, small jitter. -/
def defaultBackoff : BackoffPolicy :=
  { baseDelay := 1 / 10, maxDelay := 1, multiplier := 3 / 2, jitterFraction := 1 / 5 }

/-- Modelled from the spec: construction-time validation (§3): each field
violating the invariant is clamped to a valid value (an out-of-range
jitter falls back to 0). -/
def sanitizeBackoff (b : BackoffPolicy) : BackoffPolicy :=
  let base := if 0 < b.baseDelay then b.baseDelay else defaultBackoff.baseDelay
  { baseDelay := base
    maxDelay := if base ≤ b.maxDelay then b.maxDelay else base
    multiplier := if 1 ≤ b.multiplier then b.multiplier else 1
    jitterFraction :=
      if 0 ≤ b.jitterFraction ∧ b.jitterFraction < 1 then b.jitterFraction else 0 }

/-- Modelled from the spec: `New(maxAttempts, options...)` (§6): start
from the defaults and an always-retryable predicate, apply the options in
order, then validate/clamp the backoff fields synchronously. -/
def New {Err : Type} (maxAttempts : Nat) (opts : List (ROption Err)) : Policy Err :=
  let pol := opts.foldl applyOpt
    { maxAttempts := maxAttempts, backoff := defaultBackoff, retryable := fun _ => true }
  { pol with backoff := sanitizeBackoff pol.backoff }

end Retry

namespace Pagination

lemma b64val_b64char_fin : ∀ v : Fin 64, b64val (b64char v.val) = some v.val := by decide

lemma b64char_ne_pad_fin : ∀ v : Fin 64, b64char v.val ≠ 61 := by decide

lemma b64char_clean_fin :
    ∀ v : Fin 64, (b64char v.val != 13 && b64char v.val != 10) = true := by decide

lemma b64val_b64char (v : Nat) (h : v < 64) : b64val (b64char v) = some v :=
  b64val_b64char_fin ⟨v, h⟩

lemma b64char_ne_pad (v : Nat) (h : v < 64) : b64char v ≠ 61 :=
  b64char_ne_pad_fin ⟨v, h⟩

lemma b64char_clean (v : Nat) (h : v < 64) :
    (b64char v != 13 && b64char v != 10) = true :=
  b64char_clean_fin ⟨v, h⟩

lemma filter_base64Encode (bs : List Nat) (h : ∀ b ∈ bs, b < 256) :
    (base64Encode bs).filter (fun c => c != 13 && c != 10) = base64Encode bs := by
  induction bs using base64Encode.induct with
  | case1 => simp [base64Encode]
  | case2 b0 =>
      have h0 := h b0 (by simp)
      simp [base64Encode, List.filter,
        b64char_clean (b0 / 4) (by omega), b64char_clean (b0 % 4 * 16) (by omega)]
  | case3 b0 b1 =>
      have h0 := h b0 (by simp)
      have h1 := h b1 (by simp)
      simp [base64Encode, List.filter,
        b64char_clean (b0 / 4) (by omega),
        b64char_clean (b0 % 4 * 16 + b1 / 16) (by omega),
        b64char_clean (b1 % 16 * 4) (by omega)]
  | case4 b0 b1 b2 rest ih =>
      have h0 := h b0 (by simp)
      have h1 := h b1 (by simp)
      have h2 := h b2 (by simp)
      have hrest : ∀ b ∈ rest, b < 256 := fun b hb => h b (by simp [hb])
      simp [base64Encode, List.filter,
        b64char_clean (b0 / 4) (by omega),
        b64char_clean (b0 % 4 * 16 + b1 / 16) (by omega),
        b64char_clean (b1 % 16 * 4 + b2 / 64) (by omega),
        b64char_clean (b2 % 64) (by omega), ih hrest]

lemma decodeQuanta_base64Encode (bs : List Nat) (h : ∀ b ∈ bs, b < 256) :
    decodeQuanta (base64Encode bs) = some bs := by
  induction bs using base64Encode.induct with
  | case1 => simp [base64Encode, decodeQuanta]
  | case2 b0 =>
      have h0 := h b0 (by simp)
      simp only [base64Encode, decodeQuanta,
        b64val_b64char (b0 / 4) (by omega), b64val_b64char (b0 % 4 * 16) (by omega)]
      simp
      omega
  | case3 b0 b1 =>
      have h0 := h b0 (by simp)
      have h1 := h b1 (by simp)
      simp only [base64Encode, decodeQuanta,
        b64val_b64char (b0 / 4) (by omega),
        b64val_b64char (b0 % 4 * 16 + b1 / 16) (by omega),
        b64val_b64char (b1 % 16 * 4) (by omega)]
      rw [if_neg (b64char_ne_pad (b1 % 16 * 4) (by omega))]
      simp
      omega
  | case4 b0 b1 b2 rest ih =>
      have h0 := h b0 (by simp)
      have h1 := h b1 (by simp)
      have h2 := h b2 (by simp)
      have hrest : ∀ b ∈ rest, b < 256 := fun b hb => h b (by simp [hb])
      simp only [base64Encode, decodeQuanta,
        b64val_b64char (b0 / 4) (by omega),
        b64val_b64char (b0 % 4 * 16 + b1 / 16) (by omega),
        b64val_b64char (b1 % 16 * 4 + b2 / 64) (by omega),
        b64val_b64char (b2 % 64) (by omega)]
      rw [if_neg (b64char_ne_pad (b1 % 16 * 4 + b2 / 64) (by omega)),
        if_neg (b64char_ne_pad (b2 % 64) (by omega)), ih hrest]
      simp
      omega

end Pagination

namespace Pagination

lemma digitsVal_append (a : List Nat) (d : Nat) :
    digitsVal (a ++ [d]) = digitsVal a * 10 + (d - 48) := by
  simp [digitsVal, List.foldl_append]

lemma digitsVal_natDigits (n : Nat) : digitsVal (natDigits n) = n := by
  induction n using natDigits.induct with
  | case1 n hn =>
      rw [natDigits, dif_pos hn]
      simp [digitsVal]
  | case2 n hn ih =>
      rw [natDigits, dif_neg hn, digitsVal_append, ih]
      omega

lemma natDigits_all_digit (n : Nat) : (natDigits n).all isDigit = true := by
  induction n using natDigits.induct with
  | case1 n hn =>
      rw [natDigits, dif_pos hn]
      simp [isDigit]
      omega
  | case2 n hn ih =>
      rw [natDigits, dif_neg hn]
      simp only [List.all_append, ih, Bool.true_and, List.all_cons, List.all_nil,
        Bool.and_true]
      simp [isDigit]
      omega

lemma natDigits_head (n : Nat) :
    ∃ c cs, natDigits n = c :: cs ∧ 48 ≤ c ∧ c ≤ 57 := by
  induction n using natDigits.induct with
  | case1 n hn =>
      exact ⟨48 + n, [], by rw [natDigits, dif_pos hn], by omega, by omega⟩
  | case2 n hn ih =>
      obtain ⟨c, cs, hc, hlo, hhi⟩ := ih
      exact ⟨c, cs ++ [48 + n % 10], by rw [natDigits, dif_neg hn, hc]; simp, hlo, hhi⟩

lemma natDigits_lt_256 (n : Nat) : ∀ b ∈ natDigits n, b < 256 := by
  intro b hb
  have h := natDigits_all_digit n
  rw [List.all_eq_true] at h
  have := h b hb
  simp [isDigit] at this
  omega

lemma intToDec_lt_256 (i : Int) : ∀ b ∈ intToDec i, b < 256 := by
  intro b hb
  unfold intToDec at hb
  by_cases hi : i < 0
  · rw [if_pos hi, List.mem_cons] at hb
    rcases hb with hb | hb
    · omega
    · exact natDigits_lt_256 _ b hb
  · rw [if_neg hi] at hb
    exact natDigits_lt_256 _ b hb

lemma atoiCore_natDigits_pos (n : Nat) (hn : n < 2 ^ 63) :
    atoiCore false (natDigits n) = some (n : Int) := by
  obtain ⟨c, cs, hc, _, _⟩ := natDigits_head n
  unfold atoiCore
  rw [if_neg (by rw [hc]; simp), if_pos (natDigits_all_digit n),
    digitsVal_natDigits, if_pos hn]
  simp

lemma atoiCore_natDigits_neg (n : Nat) (hn : n ≤ 2 ^ 63) :
    atoiCore true (natDigits n) = some (-(n : Int)) := by
  obtain ⟨c, cs, hc, _, _⟩ := natDigits_head n
  unfold atoiCore
  rw [if_neg (by rw [hc]; simp), if_pos (natDigits_all_digit n),
    digitsVal_natDigits, if_pos hn]
  simp

lemma atoi_intToDec (i : Int) (hlo : -(2 ^ 63) ≤ i) (hhi : i < 2 ^ 63) :
    atoi (intToDec i) = some i := by
  unfold intToDec
  by_cases hi : i < 0
  · rw [if_pos hi]
    simp only [atoi]
    rw [if_pos trivial, atoiCore_natDigits_neg i.natAbs (by omega)]
    congr 1
    omega
  · rw [if_neg hi]
    obtain ⟨c, cs, hc, hclo, hchi⟩ := natDigits_head i.natAbs
    rw [hc]
    simp only [atoi]
    rw [if_neg (by omega), if_neg (by omega), ← hc,
      atoiCore_natDigits_pos i.natAbs (by omega)]
    congr 1
    omega

end Pagination

namespace Pagination

lemma base64Encode_ne_nil (bs : List Nat) (h : bs ≠ []) : base64Encode bs ≠ [] := by
  match bs with
  | [] => exact absurd rfl h
  | [b0] => simp [base64Encode]
  | [b0, b1] => simp [base64Encode]
  | b0 :: b1 :: b2 :: rest => simp [base64Encode]

lemma hasPrefix_append (pre rest : List Nat) : hasPrefix (pre ++ rest) pre = true := by
  induction pre with
  | nil =>
      cases rest with
      | nil => rfl
      | cons c cs => rfl
  | cons p ps ih => simp [hasPrefix, ih]

lemma trimPrefix_append (pre rest : List Nat) : trimPrefix (pre ++ rest) pre = rest := by
  unfold trimPrefix
  rw [hasPrefix_append, if_pos rfl, List.drop_left]

lemma base64Decode_base64Encode (bs : List Nat) (h : ∀ b ∈ bs, b < 256) :
    base64Decode (base64Encode bs) = some bs := by
  unfold base64Decode
  rw [filter_base64Encode bs h, decodeQuanta_base64Encode bs h]

/-- C1: for every salt and every 64-bit integer index, encoding the index
into a page token with `ForIndex` and decoding it back with `GetIndex`
round-trips exactly: the original index is returned with a nil error. -/
theorem getIndex_forIndex_roundtrip (salt : List Nat) (i : Int)
    (hsalt : ∀ b ∈ salt, b < 256) (hlo : -(2 ^ 63) ≤ i) (hhi : i < 2 ^ 63) :
    GetIndex salt (ForIndex salt i) = (i, none) := by
  have hbytes : ∀ b ∈ salt ++ intToDec i, b < 256 := by
    intro b hb
    rw [List.mem_append] at hb
    rcases hb with hb | hb
    · exact hsalt b hb
    · exact intToDec_lt_256 i b hb
  have hne : base64Encode (salt ++ intToDec i) ≠ [] := by
    apply base64Encode_ne_nil
    have := natDigits_head i.natAbs
    obtain ⟨c, cs, hc, _, _⟩ := this
    unfold intToDec
    by_cases hi : i < 0 <;> simp [hi, hc]
  unfold GetIndex ForIndex
  rw [if_neg hne, base64Decode_base64Encode _ hbytes]
  simp only [hasPrefix_append salt (intToDec i), trimPrefix_append salt (intToDec i),
    atoi_intToDec i hlo hhi, not_true_eq_false, if_false]

/-- Witness for C1 at salt "key" = [107, 101, 121] and index −42. -/
theorem getIndex_forIndex_roundtrip_witness :
    GetIndex [107, 101, 121] (ForIndex [107, 101, 121] (-42)) = (-42, none) :=
  getIndex_forIndex_roundtrip [107, 101, 121] (-42) (by decide)
    (by norm_num) (by norm_num)

end Pagination

namespace Pagination

/-- C2: `GetIndex` on the empty token returns `(0, nil)`; on a non-empty
token it returns an error iff the token fails base64 decoding, or the
decoded bytes lack the salt prefix, or the remainder after the salt is not
a decimal integer, and every error case returns index 0 with exactly
`ErrInvalidToken`. -/
theorem getIndex_error_characterization (salt token : List Nat) (h : token ≠ []) :
    (((GetIndex salt token).2 ≠ none) ↔
      (base64Decode token = none ∨
        ∃ bs, base64Decode token = some bs ∧
          (hasPrefix bs salt = false ∨ atoi (trimPrefix bs salt) = none)))
    ∧ ((GetIndex salt token).2 ≠ none →
        GetIndex salt token = (0, some PageError.invalidToken))
    ∧ GetIndex salt [] = (0, none) := by
  refine ⟨?_, ?_, rfl⟩ <;>
  · cases hdec : base64Decode token with
    | none => simp [GetIndex, h, hdec]
    | some bs =>
        by_cases hpre : hasPrefix bs salt
        · cases hat : atoi (trimPrefix bs salt) with
          | none => simp [GetIndex, h, hdec, hpre, hat]
          | some idx => simp [GetIndex, h, hdec, hpre, hat]
        · simp [GetIndex, h, hdec, hpre]

/-- Witness for C2 at salt "k" = [107] and the one-character token "!"
= [33], which is not valid base64. -/
theorem getIndex_error_characterization_witness :
    (((GetIndex [107] [33]).2 ≠ none) ↔
      (base64Decode [33] = none ∨
        ∃ bs, base64Decode [33] = some bs ∧
          (hasPrefix bs [107] = false ∨ atoi (trimPrefix bs [107]) = none)))
    ∧ ((GetIndex [107] [33]).2 ≠ none →
        GetIndex [107] [33] = (0, some PageError.invalidToken))
    ∧ GetIndex [107] [] = (0, none) :=
  getIndex_error_characterization [107] [33] (by decide)

/-- C3: `Resolve` returns `Limit = size` when `size > 0` and the default
size otherwise, and `Offset = (p − 1) × s` in wrapping 32-bit arithmetic
where `p` is `page` when `page > 0` and the default page otherwise and
`s` is the chosen limit; for positive page and size the result is
independent of the defaults, and `Resolve` is a total function. -/
theorem resolve_characterization (defPage defSize page size dp ds : Int) :
    Resolve defPage defSize page size =
      { Offset := wrap32 (wrap32 ((if 0 < page then page else defPage) - 1) *
          (if 0 < size then size else defSize)),
        Limit := if 0 < size then size else defSize }
    ∧ (0 < page → 0 < size →
        Resolve dp ds page size = Resolve defPage defSize page size) := by
  have hpage : (if page ≤ 0 then defPage else page)
      = (if 0 < page then page else defPage) := by
    split_ifs <;> omega
  have hsize : (if size ≤ 0 then defSize else size)
      = (if 0 < size then size else defSize) := by
    split_ifs <;> omega
  constructor
  · simp only [Resolve]
    rw [hpage, hsize]
  · intro hp hs
    simp only [Resolve]
    rw [if_neg (by omega), if_neg (by omega), if_neg (by omega), if_neg (by omega)]

/-- Witness for C3 at defaults (1, 10), inputs page = 2, size = 3, and
alternative defaults (5, 7). -/
theorem resolve_characterization_witness :
    Resolve 1 10 2 3 =
      { Offset := wrap32 (wrap32 ((if 0 < (2 : Int) then 2 else 1) - 1) *
          (if 0 < (3 : Int) then 3 else 10)),
        Limit := if 0 < (3 : Int) then 3 else 10 }
    ∧ (0 < (2 : Int) → 0 < (3 : Int) → Resolve 5 7 2 3 = Resolve 1 10 2 3) :=
  resolve_characterization 1 10 2 3 5 7

end Pagination

namespace Retry

/-- C4: a `Do` call whose cancellation signal is already triggered returns
the cancellation reason with the operation invoked zero times (and no
delay waited), for every policy and every fuel bound. -/
theorem do_already_cancelled (Err : Type) (pol : Policy Err) (r : Err)
    (cancelW op : Nat → Option Err) (us : Nat → ℚ) (fuel : Nat) :
    Do pol (some r) cancelW op us fuel = some ⟨some r, 0, []⟩ := rfl

/-- C5: when the retryable predicate rejects every error and the first
invocation fails with `e`, `Do` invokes the operation exactly once, waits
no delay, and returns `e` unchanged — for every `maxAttempts`. -/
theorem do_nonretryable_once (Err : Type) (pol : Policy Err)
    (cancelW op : Nat → Option Err) (us : Nat → ℚ) (fuel : Nat) (e : Err)
    (hr : ∀ x, pol.retryable x = false) (hop : op 1 = some e)
    (hfuel : 1 ≤ fuel) :
    Do pol none cancelW op us fuel = some ⟨some e, 1, []⟩ := by
  obtain ⟨f, rfl⟩ : ∃ f, fuel = f + 1 := ⟨fuel - 1, by omega⟩
  unfold Do doLoop
  rw [hop]
  simp [hr e]

lemma doLoop_exhausts (Err : Type) (pol : Policy Err)
    (cancelW op : Nat → Option Err) (us : Nat → ℚ) (errs : Nat → Err) (k : Nat)
    (hk : pol.maxAttempts = k) (hkpos : 0 < k)
    (hr : ∀ x, pol.retryable x = true) (hop : ∀ n, op n = some (errs n))
    (hcw : ∀ n, cancelW n = none) :
    ∀ fuel attempt ds, 1 ≤ attempt → attempt ≤ k → k - attempt < fuel →
      ∃ ds2, doLoop pol cancelW op us fuel attempt ds
        = some ⟨some (errs k), k, ds2⟩ := by
  intro fuel
  induction fuel with
  | zero => intro attempt ds _ _ h3; omega
  | succ f ih =>
      intro attempt ds h1 h2 h3
      by_cases hend : attempt = k
      · subst hend
        refine ⟨ds, ?_⟩
        unfold doLoop
        rw [hop attempt]
        simp [hr, hk, hkpos]
      · have hlt : attempt < k := by omega
        obtain ⟨ds2, hds⟩ := ih (attempt + 1)
          (ds ++ [delayWithJitter pol.backoff attempt (us attempt)])
          (by omega) (by omega) (by omega)
        refine ⟨ds2, ?_⟩
        have hcond : ¬(0 < pol.maxAttempts ∧ pol.maxAttempts ≤ attempt) := by
          rw [hk]; omega
        unfold doLoop
        simp only [hop attempt]
        rw [if_neg (by simp [hr (errs attempt)]), if_neg hcond, hcw attempt]
        exact hds

/-- C6: for a bounded policy with `maxAttempts = k > 0`, an
always-retryable predicate, an always-failing operation, and no
cancellation, `Do` invokes the operation exactly `k` times and returns
the `k`-th invocation's error unwrapped (given at least `k` fuel). -/
theorem do_exhausts_attempts (Err : Type) (pol : Policy Err)
    (cancelW op : Nat → Option Err) (us : Nat → ℚ) (errs : Nat → Err)
    (k fuel : Nat) (hk : pol.maxAttempts = k) (hkpos : 0 < k)
    (hr : ∀ x, pol.retryable x = true) (hop : ∀ n, op n = some (errs n))
    (hcw : ∀ n, cancelW n = none) (hfuel : k ≤ fuel) :
    ∃ ds, Do pol none cancelW op us fuel = some ⟨some (errs k), k, ds⟩ := by
  unfold Do
  exact doLoop_exhausts Err pol cancelW op us errs k hk hkpos hr hop hcw
    fuel 1 [] (le_refl 1) hkpos (by omega)

end Retry

namespace Retry

/-- Witness for C5: a policy with `maxAttempts = 5` and an
always-false predicate, an operation always failing with error 7. -/
theorem do_nonretryable_once_witness :
    Do ⟨5, defaultBackoff, fun _ => false⟩ none (fun _ => none)
      (fun _ => some 7) (fun _ => 0) 3 = some ⟨some 7, 1, []⟩ :=
  do_nonretryable_once Nat ⟨5, defaultBackoff, fun _ => false⟩ (fun _ => none)
    (fun _ => some 7) (fun _ => 0) 3 7 (fun _ => rfl) rfl (by decide)

/-- Witness for C6: a policy with `maxAttempts = 3`, an always-true
predicate, and an operation failing with error `n` on attempt `n`. -/
theorem do_exhausts_attempts_witness :
    ∃ ds, Do ⟨3, defaultBackoff, fun _ => true⟩ none (fun _ => none)
      (fun n => some n) (fun _ => 0) 5 = some ⟨some 3, 3, ds⟩ :=
  do_exhausts_attempts Nat ⟨3, defaultBackoff, fun _ => true⟩ (fun _ => none)
    (fun n => some n) (fun _ => 0) (fun n => n) 3 5 rfl (by decide)
    (fun _ => rfl) (fun _ => rfl) (fun _ => rfl) (by decide)

lemma cappedDelay_nonneg (p : BackoffPolicy) (h : ValidBackoff p) (n : Nat) :
    0 ≤ cappedDelay p n := by
  obtain ⟨hb, hbm, hm, _, _⟩ := h
  unfold cappedDelay rawDelay
  apply le_min
  · exact mul_nonneg (le_of_lt hb) (pow_nonneg (by linarith) _)
  · linarith

lemma cappedDelay_le_max (p : BackoffPolicy) (n : Nat) :
    cappedDelay p n ≤ p.maxDelay :=
  min_le_right _ _

/-- C7: with `jitterFraction = 0` the computed delay is deterministic
(equal to the capped exponential value for every admissible jitter draw),
non-decreasing in the attempt index, never negative, and bounded above by
`maxDelay`; overflow cannot occur since the cap saturates the
exponential. -/
theorem backoff_deterministic_monotone_bounded (p : BackoffPolicy)
    (h : ValidBackoff p) (hj : p.jitterFraction = 0) (n : Nat) (u : ℚ)
    (hu : |u| ≤ p.jitterFraction) :
    delayWithJitter p n u = cappedDelay p n ∧
    cappedDelay p n ≤ cappedDelay p (n + 1) ∧
    0 ≤ cappedDelay p n ∧ cappedDelay p n ≤ p.maxDelay := by
  have hnn : 0 ≤ cappedDelay p n := cappedDelay_nonneg p h n
  obtain ⟨hb, hbm, hm, hj0, hj1⟩ := h
  have hu0 : u = 0 := by
    rw [hj] at hu
    exact abs_eq_zero.mp (le_antisymm hu (abs_nonneg u))
  refine ⟨?_, ?_, hnn, cappedDelay_le_max p n⟩
  · unfold delayWithJitter clampQ
    rw [hu0, add_zero, mul_one, min_eq_left (cappedDelay_le_max p n),
      max_eq_right hnn]
  · unfold cappedDelay rawDelay
    refine min_le_min ?_ (le_refl _)
    refine mul_le_mul_of_nonneg_left ?_ (le_of_lt hb)
    exact pow_le_pow_right₀ hm (by omega)

/-- Witness for C7 at the policy (base 1, max 10, multiplier 2,
jitter 0), attempt index 3, jitter draw 0. -/
theorem backoff_deterministic_monotone_bounded_witness :
    delayWithJitter ⟨1, 10, 2, 0⟩ 3 0 = cappedDelay ⟨1, 10, 2, 0⟩ 3 ∧
    cappedDelay ⟨1, 10, 2, 0⟩ 3 ≤ cappedDelay ⟨1, 10, 2, 0⟩ 4 ∧
    0 ≤ cappedDelay ⟨1, 10, 2, 0⟩ 3 ∧ cappedDelay ⟨1, 10, 2, 0⟩ 3 ≤ (10 : ℚ) :=
  backoff_deterministic_monotone_bounded ⟨1, 10, 2, 0⟩
    ⟨by norm_num, by norm_num, by norm_num, by norm_num, by norm_num⟩
    rfl 3 0 (by norm_num)

/-- C8: for every valid policy, attempt index, and jitter draw
`u ∈ [-jitterFraction, +jitterFraction]`, the final delay lies in
`[capped × (1 − jitterFraction), capped × (1 + jitterFraction)]` and in
`[0, maxDelay]`. -/
theorem backoff_jitter_interval (p : BackoffPolicy) (h : ValidBackoff p)
    (n : Nat) (u : ℚ) (hu : |u| ≤ p.jitterFraction) :
    cappedDelay p n * (1 - p.jitterFraction) ≤ delayWithJitter p n u ∧
    delayWithJitter p n u ≤ cappedDelay p n * (1 + p.jitterFraction) ∧
    0 ≤ delayWithJitter p n u ∧ delayWithJitter p n u ≤ p.maxDelay := by
  have hnn : 0 ≤ cappedDelay p n := cappedDelay_nonneg p h n
  have hcm : cappedDelay p n ≤ p.maxDelay := cappedDelay_le_max p n
  obtain ⟨hb, hbm, hm, hj0, hj1⟩ := h
  have hmax0 : (0 : ℚ) ≤ p.maxDelay := by linarith
  rw [abs_le] at hu
  obtain ⟨hul, huh⟩ := hu
  have hprod1 : 0 ≤ cappedDelay p n * (u + p.jitterFraction) :=
    mul_nonneg hnn (by linarith)
  have hprod2 : 0 ≤ cappedDelay p n * (p.jitterFraction - u) :=
    mul_nonneg hnn (by linarith)
  have hprod3 : 0 ≤ cappedDelay p n * p.jitterFraction :=
    mul_nonneg hnn hj0
  unfold delayWithJitter clampQ
  refine ⟨?_, ?_, le_max_left _ _, max_le hmax0 (min_le_right _ _)⟩
  · refine le_trans ?_ (le_max_right _ _)
    apply le_min
    · nlinarith
    · nlinarith
  · apply max_le
    · nlinarith
    · refine le_trans (min_le_left _ _) ?_
      nlinarith

/-- Witness for C8 at the policy (base 1, max 10, multiplier 2,
jitter 1/2), attempt index 2, jitter draw 1/4. -/
theorem backoff_jitter_interval_witness :
    cappedDelay ⟨1, 10, 2, 1/2⟩ 2 * (1 - (1/2 : ℚ))
        ≤ delayWithJitter ⟨1, 10, 2, 1/2⟩ 2 (1/4) ∧
    delayWithJitter ⟨1, 10, 2, 1/2⟩ 2 (1/4)
        ≤ cappedDelay ⟨1, 10, 2, 1/2⟩ 2 * (1 + (1/2 : ℚ)) ∧
    0 ≤ delayWithJitter ⟨1, 10, 2, 1/2⟩ 2 (1/4) ∧
    delayWithJitter ⟨1, 10, 2, 1/2⟩ 2 (1/4) ≤ (10 : ℚ) :=
  backoff_jitter_interval ⟨1, 10, 2, 1/2⟩
    ⟨by norm_num, by norm_num, by norm_num, by norm_num, by norm_num⟩
    2 (1/4) (by rw [abs_of_nonneg (by norm_num)]; norm_num)

/-- C9: for every valid policy, the attempt index 1 delay is computed
from `baseDelay` alone — the capped pre-jitter value equals `baseDelay`
and the post-jitter delay is independent of the multiplier. -/
theorem backoff_first_is_base (p : BackoffPolicy) (h : ValidBackoff p)
    (u m : ℚ) :
    cappedDelay p 1 = p.baseDelay ∧
    delayWithJitter { p with multiplier := m } 1 u = delayWithJitter p 1 u := by
  obtain ⟨hb, hbm, hm, _, _⟩ := h
  have h1 : cappedDelay p 1 = p.baseDelay := by
    unfold cappedDelay rawDelay
    norm_num
    exact hbm
  have h2 : cappedDelay { p with multiplier := m } 1 = p.baseDelay := by
    unfold cappedDelay rawDelay
    norm_num
    exact hbm
  refine ⟨h1, ?_⟩
  unfold delayWithJitter
  rw [h1, h2]

/-- Witness for C9 at the policy (base 1, max 10, multiplier 2,
jitter 1/5), jitter draw 1/10, and replacement multiplier 7. -/
theorem backoff_first_is_base_witness :
    cappedDelay ⟨1, 10, 2, 1/5⟩ 1 = (1 : ℚ) ∧
    delayWithJitter { (⟨1, 10, 2, 1/5⟩ : BackoffPolicy) with multiplier := 7 }
        1 (1/10)
      = delayWithJitter ⟨1, 10, 2, 1/5⟩ 1 (1/10) :=
  backoff_first_is_base ⟨1, 10, 2, 1/5⟩
    ⟨by norm_num, by norm_num, by norm_num, by norm_num, by norm_num⟩
    (1/10) 7

lemma sanitizeBackoff_valid (b : BackoffPolicy) :
    ValidBackoff (sanitizeBackoff b) := by
  unfold ValidBackoff sanitizeBackoff defaultBackoff
  refine ⟨?_, ?_, ?_, ?_, ?_⟩ <;> simp only [] <;> split_ifs <;>
    first | assumption | linarith

/-- C10: `New` validates the backoff fields synchronously at
construction, clamping every violation of the §3 invariant, so every
policy it produces satisfies `baseDelay > 0 ∧ maxDelay ≥ baseDelay ∧
multiplier ≥ 1 ∧ 0 ≤ jitterFraction < 1` and a malformed policy is never
observed by `Do`. -/
theorem new_policy_always_valid (Err : Type) (maxA : Nat)
    (opts : List (ROption Err)) :
    ValidBackoff (New maxA opts).backoff :=
  sanitizeBackoff_valid _

end Retry
